import Mathlib

/-!
Shallow embedding of the boolbin expiring boolean cell store
(`src/flask_app.py`).

The SQLite table `bool_store` is modelled as a list of `Cell` records; the
`write_uuid` column is its PRIMARY KEY and `read_uuid` is UNIQUE, which the
embedding models as explicit constraint checks in `index` and as `Nodup`
hypotheses where a claim needs them.  Timestamps (`int(time.time())`) are
natural numbers; the `gravity_time` query parameter is a Python `int`, so
durations are integers.  The string layer of the two query parameters is
kept where the code inspects it: the `bit` parameter is an optional string
compared against `"true"` after lowercasing, and the `gravity_time`
parameter is an `Option (Option Int)`: `none` means the parameter is absent,
`some none` means it is present but `int(...)` raises `ValueError`, and
`some (some g)` means it parses to the integer `g`.
-/

namespace BoolBin

/-- `EXPIRATION_DAYS = 3` from the source. -/
def EXPIRATION_DAYS : Nat := 3

/-- `EXPIRATION_SECONDS = EXPIRATION_DAYS * 24 * 60 * 60` from the source. -/
def EXPIRATION_SECONDS : Nat := EXPIRATION_DAYS * 24 * 60 * 60

/-- One row of the `bool_store` table: write key, read key, stored bit,
`created_at` (the last-written timestamp, refreshed on every bit write),
and the two gravity columns; `gravity_expires_at` is a nullable column. -/
structure Cell where
  write_uuid : String
  read_uuid : String
  bit : Bool
  created_at : Nat
  gravity_enabled : Bool
  gravity_expires_at : Option Nat
deriving DecidableEq, Repr

/-- The whole table. -/
abbrev Store := List Cell

/-- `SELECT ... WHERE write_uuid = ?`, returning the first matching row. -/
def findByWrite (s : Store) (wk : String) : Option Cell :=
  s.find? (fun c => c.write_uuid == wk)

/-- `SELECT ... WHERE read_uuid = ?`, returning the first matching row. -/
def findByRead (s : Store) (rk : String) : Option Cell :=
  s.find? (fun c => c.read_uuid == rk)

/-- `UPDATE ... WHERE write_uuid = ?`: applies `f` to every row whose
write key matches (with the PRIMARY KEY constraint there is at most one). -/
def updateByWrite (s : Store) (wk : String) (f : Cell → Cell) : Store :=
  s.map (fun c => if c.write_uuid == wk then f c else c)

/-- `UPDATE ... WHERE read_uuid = ?`: applies `f` to every row whose
read key matches (with the UNIQUE constraint there is at most one). -/
def updateByRead (s : Store) (rk : String) (f : Cell → Cell) : Store :=
  s.map (fun c => if c.read_uuid == rk then f c else c)

/-- The idle-deletion condition of `cleanup_expired`:
`now - created_at > EXPIRATION_SECONDS` in SQLite integer arithmetic. -/
def idleDeleted (now : Nat) (c : Cell) : Bool :=
  decide ((EXPIRATION_SECONDS : Int) < (now : Int) - (c.created_at : Int))

/-- `cleanup_expired`: `DELETE FROM bool_store WHERE now - created_at > EXPIRATION_SECONDS`. -/
def cleanup_expired (now : Nat) (s : Store) : Store :=
  s.filter (fun c => !idleDeleted now c)

/-- The reset both expiry paths persist:
`SET bit = 0, gravity_enabled = 0, gravity_expires_at = NULL`. -/
def gravityResetCell (c : Cell) : Cell :=
  { c with bit := false, gravity_enabled := false, gravity_expires_at := none }

/-- One row under the `gravity_monitor` UPDATE: the reset applies exactly when
`gravity_enabled = 1 AND gravity_expires_at IS NOT NULL AND now >= gravity_expires_at`. -/
def gravitySweepCell (now : Nat) (c : Cell) : Cell :=
  match c.gravity_expires_at with
  | none => c
  | some t => if c.gravity_enabled && decide (t ≤ now) then gravityResetCell c else c

/-- One pass of the `gravity_monitor` background loop over the whole table. -/
def gravity_monitor_pass (now : Nat) (s : Store) : Store :=
  s.map (gravitySweepCell now)

/-- Result of the creation route `index`: either the fresh key pair, or the
`sqlite3.IntegrityError` raised when the INSERT violates the PRIMARY KEY /
UNIQUE constraint on an existing key of the same column. -/
inductive CreateOutcome
  | created (write_uuid read_uuid : String)
  | integrityError
deriving DecidableEq, Repr

/-- The creation route `index`: runs `cleanup_expired`, then INSERTs a row for
the two freshly drawn uuids with `bit = 0`, `created_at = now`,
`gravity_enabled = 0`, `gravity_expires_at = NULL`.  The uuids are drawn by
`uuid.uuid4()`; the embedding takes them as inputs.  Nothing checks them
against existing keys: only the table constraints can object, and a
violation aborts the request (it is never retried). -/
def index (wk rk : String) (now : Nat) (s : Store) : Store × CreateOutcome :=
  if (cleanup_expired now s).any (fun c => c.write_uuid == wk)
      || (cleanup_expired now s).any (fun c => c.read_uuid == rk) then
    (cleanup_expired now s, CreateOutcome.integrityError)
  else
    (cleanup_expired now s ++ [⟨wk, rk, false, now, false, none⟩],
     CreateOutcome.created wk rk)

/-- Python `str.lower` (on the ASCII alphabet the routes compare against). -/
def pyLower (s : String) : String :=
  String.mk (s.data.map Char.toLower)

/-- `1 if bit.lower() == "true" else 0` from `write_bit`. -/
def parseBit (b : String) : Bool :=
  pyLower b == "true"

/-- What the `write_bit` route returns: 404 for an unknown write key,
400 for an unparsable `gravity_time`, the updated snapshot when `bit` was
supplied, or the bare key pair when it was not. -/
inductive WriteOutcome
  | notFound
  | invalidGravity
  | updated (bit : Bool) (read_uuid : String) (gravity : Option (Bool × Option Nat))
  | keys (write_uuid read_uuid : String)
deriving DecidableEq, Repr

/-- The `write_bit` route.  `bit` and `gravity_time` are the query
parameters; `some none` for `gravity_time` is a present-but-unparsable
value (Python `int(...)` raising `ValueError`).  Returns the table after the
request together with the route's outcome. -/
def write_bit (wk : String) (bit : Option String) (gravity_time : Option (Option Int))
    (now : Nat) (s : Store) : Store × WriteOutcome :=
  match findByWrite s wk with
  | none => (s, WriteOutcome.notFound)
  | some row =>
    match bit with
    | none => (s, WriteOutcome.keys wk row.read_uuid)
    | some b =>
      let bit_value := parseBit b
      match gravity_time with
      | none =>
        (updateByWrite s wk (fun c => { c with bit := bit_value, created_at := now }),
         WriteOutcome.updated bit_value row.read_uuid none)
      | some none => (s, WriteOutcome.invalidGravity)
      | some (some g) =>
        let gravity_enabled := decide (0 < g)
        let gravity_expires_at : Option Nat :=
          if 0 < g then some (now + g.toNat) else none
        (updateByWrite s wk (fun c =>
           { c with
               bit := bit_value
               created_at := now
               gravity_enabled := gravity_enabled
               gravity_expires_at := gravity_expires_at }),
         WriteOutcome.updated bit_value row.read_uuid
           (some (gravity_enabled, gravity_expires_at)))

/-- What the `read_bit` route returns: 404 or the effective bit. -/
inductive ReadOutcome
  | notFound
  | value (bit : Bool)
deriving DecidableEq, Repr

/-- The `read_bit` route.  The lazy-expiry guard is Python
`gravity_enabled and gravity_expires_at and current_time >= gravity_expires_at`:
truthiness of `gravity_expires_at` excludes both `NULL` and `0`. -/
def read_bit (rk : String) (now : Nat) (s : Store) : Store × ReadOutcome :=
  match findByRead s rk with
  | none => (s, ReadOutcome.notFound)
  | some row =>
    match row.gravity_expires_at with
    | none => (s, ReadOutcome.value row.bit)
    | some t =>
      if row.gravity_enabled && !(t == 0) && decide (t ≤ now) then
        (updateByRead s rk gravityResetCell, ReadOutcome.value false)
      else
        (s, ReadOutcome.value row.bit)

/-- The spec's §3 invariant: `gravity_expires_at` is present iff
`gravity_enabled` is true. -/
def GravityIff (c : Cell) : Prop :=
  c.gravity_enabled = true ↔ c.gravity_expires_at.isSome

/-- Well-formedness of reachable rows: the §3 presence invariant, plus
positivity of the armed deadline (every armed deadline is `now + d` for a
positive timestamp `now` and a positive duration `d`, hence never `0`). -/
def CellWF (c : Cell) : Prop :=
  GravityIff c ∧ c.gravity_expires_at ≠ some 0

/-- The presence invariant over the whole table. -/
def StoreGravityIff (s : Store) : Prop :=
  ∀ c ∈ s, GravityIff c

/-- Well-formedness over the whole table. -/
def StoreWF (s : Store) : Prop :=
  ∀ c ∈ s, CellWF c

instance (c : Cell) : Decidable (GravityIff c) := by
  unfold GravityIff
  infer_instance

instance (c : Cell) : Decidable (CellWF c) := by
  unfold CellWF
  infer_instance

instance (s : Store) : Decidable (StoreWF s) := by
  unfold StoreWF
  exact List.decidableBAll _ s

instance (s : Store) : Decidable (StoreGravityIff s) := by
  unfold StoreGravityIff
  exact List.decidableBAll _ s

/-! ### Helper lemmas -/

theorem find_map_of_pred_fix (p : Cell → Bool) (g : Cell → Cell)
    (hg : ∀ c, p (g c) = p c) :
    ∀ s : List Cell, (s.map g).find? p = (s.find? p).map g := by
  intro s
  induction s with
  | nil => rfl
  | cons a l ih =>
    by_cases hpa : p a = true
    · rw [List.map_cons, List.find?_cons_of_pos _ (by rw [hg]; exact hpa),
        List.find?_cons_of_pos _ hpa]
      rfl
    · rw [List.map_cons, List.find?_cons_of_neg _ (by rw [hg]; exact hpa),
        List.find?_cons_of_neg _ hpa, ih]

theorem findByRead_updateByRead (s : Store) (rk rk1 : String) (f : Cell → Cell)
    (hf : ∀ c, (f c).read_uuid = c.read_uuid) :
    findByRead (updateByRead s rk f) rk1 =
      (findByRead s rk1).map (fun c => if c.read_uuid == rk then f c else c) := by
  unfold findByRead updateByRead
  apply find_map_of_pred_fix
  intro c
  by_cases h : c.read_uuid == rk
  · simp [h, hf]
  · simp [h]

theorem findByWrite_updateByWrite (s : Store) (wk wk1 : String) (f : Cell → Cell)
    (hf : ∀ c, (f c).write_uuid = c.write_uuid) :
    findByWrite (updateByWrite s wk f) wk1 =
      (findByWrite s wk1).map (fun c => if c.write_uuid == wk then f c else c) := by
  unfold findByWrite updateByWrite
  apply find_map_of_pred_fix
  intro c
  by_cases h : c.write_uuid == wk
  · simp [h, hf]
  · simp [h]

theorem gravitySweepCell_read_uuid (now : Nat) (c : Cell) :
    (gravitySweepCell now c).read_uuid = c.read_uuid := by
  unfold gravitySweepCell gravityResetCell
  cases c.gravity_expires_at with
  | none => rfl
  | some t =>
    dsimp only
    split
    · rfl
    · rfl

theorem gravitySweepCell_write_uuid (now : Nat) (c : Cell) :
    (gravitySweepCell now c).write_uuid = c.write_uuid := by
  unfold gravitySweepCell gravityResetCell
  cases c.gravity_expires_at with
  | none => rfl
  | some t =>
    dsimp only
    split
    · rfl
    · rfl

theorem gravitySweepCell_created_at (now : Nat) (c : Cell) :
    (gravitySweepCell now c).created_at = c.created_at := by
  unfold gravitySweepCell gravityResetCell
  cases c.gravity_expires_at with
  | none => rfl
  | some t =>
    dsimp only
    split
    · rfl
    · rfl

theorem findByRead_sweep (s : Store) (now : Nat) (rk : String) :
    findByRead (gravity_monitor_pass now s) rk =
      (findByRead s rk).map (gravitySweepCell now) := by
  unfold findByRead gravity_monitor_pass
  apply find_map_of_pred_fix
  intro c
  rw [gravitySweepCell_read_uuid]

theorem created_at_map_of_fix (g : Cell → Cell)
    (hg : ∀ c, (g c).created_at = c.created_at) (s : Store) :
    (s.map g).map Cell.created_at = s.map Cell.created_at := by
  rw [List.map_map]
  apply List.map_congr_left
  intro c _
  exact hg c

theorem updateByRead_created_at (s : Store) (rk : String) (f : Cell → Cell)
    (hf : ∀ c, (f c).created_at = c.created_at) :
    (updateByRead s rk f).map Cell.created_at = s.map Cell.created_at := by
  apply created_at_map_of_fix
  intro c
  by_cases h : c.read_uuid == rk <;> simp [h, hf]

theorem mem_of_findByRead (s : Store) (rk : String) (c : Cell)
    (h : findByRead s rk = some c) : c ∈ s :=
  List.mem_of_find?_eq_some h

theorem findByRead_key (s : Store) (rk : String) (c : Cell)
    (h : findByRead s rk = some c) : (c.read_uuid == rk) = true := by
  unfold findByRead at h
  simpa using List.find?_some h

theorem findByWrite_key (s : Store) (wk : String) (c : Cell)
    (h : findByWrite s wk = some c) : (c.write_uuid == wk) = true := by
  unfold findByWrite at h
  simpa using List.find?_some h

theorem gravitySweepCell_armed (now t : Nat) (c : Cell)
    (hen : c.gravity_enabled = true) (hex : c.gravity_expires_at = some t)
    (hle : t ≤ now) : gravitySweepCell now c = gravityResetCell c := by
  unfold gravitySweepCell
  rw [hex, hen]
  simp [hle]

theorem gravitySweepCell_disabled (now : Nat) (c : Cell)
    (h : c.gravity_enabled = false) : gravitySweepCell now c = c := by
  unfold gravitySweepCell
  cases hx : c.gravity_expires_at with
  | none => rfl
  | some t => simp [h]

theorem gravitySweepCell_no_deadline (now : Nat) (c : Cell)
    (h : c.gravity_expires_at = none) : gravitySweepCell now c = c := by
  unfold gravitySweepCell
  rw [h]

theorem gravitySweepCell_idem (now : Nat) (c : Cell) :
    gravitySweepCell now (gravitySweepCell now c) = gravitySweepCell now c := by
  cases hx : c.gravity_expires_at with
  | none => rw [gravitySweepCell_no_deadline now c hx,
      gravitySweepCell_no_deadline now c hx]
  | some t =>
    by_cases h : (c.gravity_enabled && decide (t ≤ now)) = true
    · have h1 : gravitySweepCell now c = gravityResetCell c := by
        unfold gravitySweepCell
        rw [hx]
        simp [h]
      rw [h1]
      exact gravitySweepCell_no_deadline now (gravityResetCell c) rfl
    · have h1 : gravitySweepCell now c = c := by
        unfold gravitySweepCell
        rw [hx]
        simp only [h, if_false, Bool.false_eq_true, if_neg]
      rw [h1, h1]

theorem write_bit_not_found (wk : String) (bitp : Option String)
    (gtp : Option (Option Int)) (now : Nat) (s : Store)
    (h : findByWrite s wk = none) :
    write_bit wk bitp gtp now s = (s, WriteOutcome.notFound) := by
  unfold write_bit
  rw [h]

theorem read_bit_not_found (rk : String) (now : Nat) (s : Store)
    (h : findByRead s rk = none) :
    read_bit rk now s = (s, ReadOutcome.notFound) := by
  unfold read_bit
  rw [h]

theorem read_bit_expired (rk : String) (now t : Nat) (s : Store) (c : Cell)
    (hc : findByRead s rk = some c) (hen : c.gravity_enabled = true)
    (hex : c.gravity_expires_at = some t) (ht0 : t ≠ 0) (hle : t ≤ now) :
    read_bit rk now s = (updateByRead s rk gravityResetCell, ReadOutcome.value false) := by
  simp only [read_bit, hc]
  rw [hex]
  simp [hen, ht0, hle]

theorem read_bit_not_expired (rk : String) (now : Nat) (s : Store) (c : Cell)
    (hc : findByRead s rk = some c)
    (hq : ∀ t, c.gravity_enabled = true → c.gravity_expires_at = some t → now < t) :
    read_bit rk now s = (s, ReadOutcome.value c.bit) := by
  simp only [read_bit, hc]
  cases hx : c.gravity_expires_at with
  | none => rfl
  | some t =>
    cases hen : c.gravity_enabled with
    | false => simp
    | true =>
      have hlt : now < t := hq t hen hx
      have hnle : ¬ t ≤ now := Nat.not_le.mpr hlt
      simp [hnle]

theorem findByRead_reset (s : Store) (rk : String) (c : Cell)
    (hc : findByRead s rk = some c) :
    findByRead (updateByRead s rk gravityResetCell) rk = some (gravityResetCell c) := by
  rw [findByRead_updateByRead s rk rk gravityResetCell (fun _ => rfl), hc]
  have hkey : c.read_uuid = rk := by simpa using findByRead_key s rk c hc
  simp [hkey]

theorem findByWrite_cleanup_none (now : Nat) (s : Store) (c : Cell)
    (hmem : c ∈ s) (hnd : (s.map Cell.write_uuid).Nodup)
    (hdel : idleDeleted now c = true) :
    findByWrite (cleanup_expired now s) c.write_uuid = none := by
  unfold findByWrite cleanup_expired
  rw [List.find?_eq_none]
  intro x hx
  rw [List.mem_filter] at hx
  obtain ⟨hxs, hkeep⟩ := hx
  intro hbeq
  have hxw : x.write_uuid = c.write_uuid := by simpa using hbeq
  have hxc : x = c := List.inj_on_of_nodup_map hnd hxs hmem hxw
  rw [hxc, hdel] at hkeep
  simp at hkeep

theorem findByRead_cleanup_none (now : Nat) (s : Store) (c : Cell)
    (hmem : c ∈ s) (hnd : (s.map Cell.read_uuid).Nodup)
    (hdel : idleDeleted now c = true) :
    findByRead (cleanup_expired now s) c.read_uuid = none := by
  unfold findByRead cleanup_expired
  rw [List.find?_eq_none]
  intro x hx
  rw [List.mem_filter] at hx
  obtain ⟨hxs, hkeep⟩ := hx
  intro hbeq
  have hxw : x.read_uuid = c.read_uuid := by simpa using hbeq
  have hxc : x = c := List.inj_on_of_nodup_map hnd hxs hmem hxw
  rw [hxc, hdel] at hkeep
  simp at hkeep

theorem gravityIff_reset (c : Cell) : GravityIff (gravityResetCell c) := by
  simp [GravityIff, gravityResetCell]

theorem gravityIff_sweep (now : Nat) (c : Cell) (h : GravityIff c) :
    GravityIff (gravitySweepCell now c) := by
  unfold gravitySweepCell
  cases hx : c.gravity_expires_at with
  | none => exact h
  | some t =>
    by_cases hcond : (c.gravity_enabled && decide (t ≤ now)) = true
    · simp only [hcond, if_pos]
      exact gravityIff_reset c
    · simp only [hcond, Bool.false_eq_true, if_neg]
      exact h

theorem storeGravityIff_updateByWrite (s : Store) (wk : String) (f : Cell → Cell)
    (hf : ∀ c, GravityIff c → GravityIff (f c)) (h : StoreGravityIff s) :
    StoreGravityIff (updateByWrite s wk f) := by
  intro c hc
  unfold updateByWrite at hc
  obtain ⟨y, hy, hyc⟩ := List.mem_map.mp hc
  by_cases hk : (y.write_uuid == wk) = true
  · rw [if_pos hk] at hyc
    exact hyc ▸ hf y (h y hy)
  · rw [if_neg hk] at hyc
    exact hyc ▸ h y hy

theorem storeGravityIff_updateByRead (s : Store) (rk : String) (f : Cell → Cell)
    (hf : ∀ c, GravityIff c → GravityIff (f c)) (h : StoreGravityIff s) :
    StoreGravityIff (updateByRead s rk f) := by
  intro c hc
  unfold updateByRead at hc
  obtain ⟨y, hy, hyc⟩ := List.mem_map.mp hc
  by_cases hk : (y.read_uuid == rk) = true
  · rw [if_pos hk] at hyc
    exact hyc ▸ hf y (h y hy)
  · rw [if_neg hk] at hyc
    exact hyc ▸ h y hy

theorem storeGravityIff_cleanup (now : Nat) (s : Store) (h : StoreGravityIff s) :
    StoreGravityIff (cleanup_expired now s) := by
  intro c hc
  unfold cleanup_expired at hc
  exact h c (List.mem_filter.mp hc).1

theorem read_bit_fst_idem (rk : String) (now : Nat) (s : Store) :
    (read_bit rk now (read_bit rk now s).fst).fst = (read_bit rk now s).fst := by
  cases hfr : findByRead s rk with
  | none =>
    rw [read_bit_not_found rk now s hfr]
    rw [read_bit_not_found rk now s hfr]
  | some c =>
    cases hx : c.gravity_expires_at with
    | none =>
      have h1 : read_bit rk now s = (s, ReadOutcome.value c.bit) := by
        simp only [read_bit, hfr]
        rw [hx]
      rw [h1, h1]
    | some t =>
      by_cases hcond : (c.gravity_enabled && !(t == 0) && decide (t ≤ now)) = true
      · have h1 : read_bit rk now s =
            (updateByRead s rk gravityResetCell, ReadOutcome.value false) := by
          simp only [read_bit, hfr]
          rw [hx]
          simp only [hcond, if_pos]
        rw [h1]
        have hf1 : findByRead (updateByRead s rk gravityResetCell) rk =
            some (gravityResetCell c) := findByRead_reset s rk c hfr
        simp only [read_bit, hf1]
        rfl
      · have h1 : read_bit rk now s = (s, ReadOutcome.value c.bit) := by
          simp only [read_bit, hfr]
          rw [hx]
          simp [hcond]
        rw [h1, h1]

/-! ### The claims -/

theorem findByWrite_update_self (s : Store) (wk : String) (f : Cell → Cell) (c : Cell)
    (hf : ∀ x, (f x).write_uuid = x.write_uuid)
    (hc : findByWrite s wk = some c) :
    findByWrite (updateByWrite s wk f) wk = some (f c) := by
  rw [findByWrite_updateByWrite s wk wk f hf, hc]
  have hkey : c.write_uuid = wk := by simpa using findByWrite_key s wk c hc
  simp [hkey]

/-- C1: a read through a resolving read key on a well-formed table: when the
cell has gravity enabled and its deadline has passed, the read answers the
effective bit `false` and persists the reset row
(bit `false`, gravity disabled, no deadline); otherwise it answers the
stored bit and leaves the table untouched; in every case the read leaves
every `created_at` (the last-written timestamp) unchanged. -/
theorem C1 (rk : String) (now : Nat) (s : Store) (c : Cell)
    (hwf : StoreWF s) (hc : findByRead s rk = some c) :
    (∀ t, c.gravity_enabled = true → c.gravity_expires_at = some t → t ≤ now →
        read_bit rk now s = (updateByRead s rk gravityResetCell, ReadOutcome.value false) ∧
        findByRead (read_bit rk now s).fst rk = some (gravityResetCell c)) ∧
    ((∀ t, c.gravity_enabled = true → c.gravity_expires_at = some t → now < t) →
        read_bit rk now s = (s, ReadOutcome.value c.bit)) ∧
    (read_bit rk now s).fst.map Cell.created_at = s.map Cell.created_at := by
  have hcw : CellWF c := hwf c (mem_of_findByRead s rk c hc)
  refine ⟨?_, ?_, ?_⟩
  · intro t hen hex hle
    have ht0 : t ≠ 0 := fun h0 => hcw.2 (h0 ▸ hex)
    have h1 := read_bit_expired rk now t s c hc hen hex ht0 hle
    refine ⟨h1, ?_⟩
    rw [h1]
    exact findByRead_reset s rk c hc
  · intro hq
    exact read_bit_not_expired rk now s c hc hq
  · cases hfx : c.gravity_expires_at with
    | none =>
      have h1 : read_bit rk now s = (s, ReadOutcome.value c.bit) := by
        simp only [read_bit, hc]
        rw [hfx]
      rw [h1]
    | some t =>
      by_cases hcond : (c.gravity_enabled && !(t == 0) && decide (t ≤ now)) = true
      · have h1 : read_bit rk now s =
            (updateByRead s rk gravityResetCell, ReadOutcome.value false) := by
          simp only [read_bit, hc]
          rw [hfx]
          simp only [hcond, if_pos]
        rw [h1]
        exact updateByRead_created_at s rk gravityResetCell (fun x => rfl)
      · have h1 : read_bit rk now s = (s, ReadOutcome.value c.bit) := by
          simp only [read_bit, hc]
          rw [hfx]
          simp [hcond]
        rw [h1]

/-- C2: a write through a resolving write key with a `bit` value sets the
bit and refreshes `created_at` to `now`; a supplied positive duration arms
gravity with deadline `now + duration`, a supplied non-positive duration
disarms it, and an omitted duration leaves both gravity fields exactly as
they were. -/
theorem C2 (wk b : String) (g : Int) (now : Nat) (s : Store) (c : Cell)
    (hc : findByWrite s wk = some c) :
    (0 < g →
      write_bit wk (some b) (some (some g)) now s =
        (updateByWrite s wk (fun x =>
           { x with
               bit := parseBit b
               created_at := now
               gravity_enabled := true
               gravity_expires_at := some (now + g.toNat) }),
         WriteOutcome.updated (parseBit b) c.read_uuid
           (some (true, some (now + g.toNat)))) ∧
      findByWrite (write_bit wk (some b) (some (some g)) now s).fst wk =
        some { c with
                 bit := parseBit b
                 created_at := now
                 gravity_enabled := true
                 gravity_expires_at := some (now + g.toNat) }) ∧
    (g ≤ 0 →
      write_bit wk (some b) (some (some g)) now s =
        (updateByWrite s wk (fun x =>
           { x with
               bit := parseBit b
               created_at := now
               gravity_enabled := false
               gravity_expires_at := none }),
         WriteOutcome.updated (parseBit b) c.read_uuid (some (false, none))) ∧
      findByWrite (write_bit wk (some b) (some (some g)) now s).fst wk =
        some { c with
                 bit := parseBit b
                 created_at := now
                 gravity_enabled := false
                 gravity_expires_at := none }) ∧
    (write_bit wk (some b) none now s =
        (updateByWrite s wk (fun x => { x with bit := parseBit b, created_at := now }),
         WriteOutcome.updated (parseBit b) c.read_uuid none) ∧
     findByWrite (write_bit wk (some b) none now s).fst wk =
        some { c with bit := parseBit b, created_at := now }) := by
  refine ⟨?_, ?_, ?_⟩
  · intro hg
    have heq : write_bit wk (some b) (some (some g)) now s =
        (updateByWrite s wk (fun x =>
           { x with
               bit := parseBit b
               created_at := now
               gravity_enabled := true
               gravity_expires_at := some (now + g.toNat) }),
         WriteOutcome.updated (parseBit b) c.read_uuid
           (some (true, some (now + g.toNat)))) := by
      simp only [write_bit, hc]
      simp [hg]
    refine ⟨heq, ?_⟩
    rw [heq]
    exact findByWrite_update_self s wk _ c (fun x => rfl) hc
  · intro hg
    have hng : ¬ 0 < g := Int.not_lt.mpr hg
    have heq : write_bit wk (some b) (some (some g)) now s =
        (updateByWrite s wk (fun x =>
           { x with
               bit := parseBit b
               created_at := now
               gravity_enabled := false
               gravity_expires_at := none }),
         WriteOutcome.updated (parseBit b) c.read_uuid (some (false, none))) := by
      simp only [write_bit, hc]
      simp [hng]
    refine ⟨heq, ?_⟩
    rw [heq]
    exact findByWrite_update_self s wk _ c (fun x => rfl) hc
  · have heq : write_bit wk (some b) none now s =
        (updateByWrite s wk (fun x => { x with bit := parseBit b, created_at := now }),
         WriteOutcome.updated (parseBit b) c.read_uuid none) := by
      simp only [write_bit, hc]
    refine ⟨heq, ?_⟩
    rw [heq]
    exact findByWrite_update_self s wk _ c (fun x => rfl) hc

/-- C3: for a well-formed cell armed with deadline `t` and `now ≥ t`, the
lazy read path and the background sweep converge: reading yields
bit `false` and persists the reset row, sweeping (without any read) stores
the identical reset row, and a read after the sweep also answers `false`
(leaving the swept table unchanged). -/
theorem C3 (rk : String) (now t : Nat) (s : Store) (c : Cell)
    (hwf : StoreWF s) (hc : findByRead s rk = some c)
    (hen : c.gravity_enabled = true) (hex : c.gravity_expires_at = some t)
    (hnow : t ≤ now) :
    read_bit rk now s = (updateByRead s rk gravityResetCell, ReadOutcome.value false) ∧
    findByRead (updateByRead s rk gravityResetCell) rk = some (gravityResetCell c) ∧
    findByRead (gravity_monitor_pass now s) rk = some (gravityResetCell c) ∧
    read_bit rk now (gravity_monitor_pass now s) =
      (gravity_monitor_pass now s, ReadOutcome.value false) := by
  have hcw : CellWF c := hwf c (mem_of_findByRead s rk c hc)
  have ht0 : t ≠ 0 := fun h0 => hcw.2 (h0 ▸ hex)
  have h1 := read_bit_expired rk now t s c hc hen hex ht0 hnow
  have h3 : findByRead (gravity_monitor_pass now s) rk = some (gravityResetCell c) := by
    rw [findByRead_sweep s now rk, hc]
    simp [gravitySweepCell_armed now t c hen hex hnow]
  refine ⟨h1, findByRead_reset s rk c hc, h3, ?_⟩
  simp only [read_bit, h3]
  rfl

/-- C4: the idle sweep keeps exactly the cells whose last-written timestamp
is within the idle threshold of `now`; the creation route is the sweep
followed by the insertion attempt; and a swept-away cell answers `NotFound`
through both of its keys afterwards (given the table's key uniqueness). -/
theorem C4 (now : Nat) (s : Store) :
    (∀ c ∈ s, c ∈ cleanup_expired now s ↔
        ¬ (EXPIRATION_SECONDS : Int) < (now : Int) - (c.created_at : Int)) ∧
    (∀ wk rk, index wk rk now s = (cleanup_expired now s, CreateOutcome.integrityError) ∨
        index wk rk now s =
          (cleanup_expired now s ++ [⟨wk, rk, false, now, false, none⟩],
           CreateOutcome.created wk rk)) ∧
    (∀ c ∈ s, (s.map Cell.write_uuid).Nodup → (s.map Cell.read_uuid).Nodup →
        (EXPIRATION_SECONDS : Int) < (now : Int) - (c.created_at : Int) →
        (∀ bitp gtp, write_bit c.write_uuid bitp gtp now (cleanup_expired now s) =
            (cleanup_expired now s, WriteOutcome.notFound)) ∧
        read_bit c.read_uuid now (cleanup_expired now s) =
            (cleanup_expired now s, ReadOutcome.notFound)) := by
  refine ⟨?_, ?_, ?_⟩
  · intro c hcs
    unfold cleanup_expired idleDeleted
    rw [List.mem_filter]
    simp [hcs]
  · intro wk rk
    unfold index
    split
    · exact Or.inl rfl
    · exact Or.inr rfl
  · intro c hcs hndw hndr hdel
    have hdel1 : idleDeleted now c = true := by
      unfold idleDeleted
      exact decide_eq_true hdel
    constructor
    · intro bitp gtp
      exact write_bit_not_found _ bitp gtp now _
        (findByWrite_cleanup_none now s c hcs hndw hdel1)
    · exact read_bit_not_found _ now _
        (findByRead_cleanup_none now s c hcs hndr hdel1)

/-- C5 counterexample: `-5` is a supplied gravity duration that is not a
valid non-negative integer number of seconds, yet the write through a
resolving key does not fail with `InvalidArgument`: it succeeds, flips the
stored bit and disarms gravity — so the claim as stated is false. -/
theorem C5_counterexample :
    write_bit "w" (some "true") (some (some (-5))) 10
        [⟨"w", "r", false, 10, false, none⟩] =
      ([⟨"w", "r", true, 10, false, none⟩],
       WriteOutcome.updated true "r" (some (false, none))) := by
  decide

/-- C5 (amended): only a supplied gravity duration that does not parse as
an integer makes the write fail with `InvalidArgument`, and then the table
is entirely unchanged; a parseable negative duration is accepted and merely
disables gravity. -/
theorem C5_amended (wk b : String) (now : Nat) (s : Store) (c : Cell)
    (hc : findByWrite s wk = some c) :
    write_bit wk (some b) (some none) now s = (s, WriteOutcome.invalidGravity) ∧
    (∀ g : Int, g < 0 →
      (write_bit wk (some b) (some (some g)) now s).snd =
        WriteOutcome.updated (parseBit b) c.read_uuid (some (false, none))) := by
  constructor
  · simp only [write_bit, hc]
  · intro g hg
    have hng : ¬ 0 < g := by omega
    simp only [write_bit, hc]
    simp [hng]

/-- C6 counterexample: creating with a token that collides with an existing
write key does not retry with a new token — the insertion aborts with the
constraint violation and no cell is inserted — so the claim as stated is
false. -/
theorem C6_counterexample :
    index "k" "r2" 5 [⟨"k", "r1", false, 5, false, none⟩] =
      ([⟨"k", "r1", false, 5, false, none⟩], CreateOutcome.integrityError) := by
  decide

/-- C6 (amended): creation inserts a cell with bit `false`, gravity
disabled and `created_at = now` under the two freshly drawn tokens,
provided the write token differs from every surviving write key and the
read token from every surviving read key; on such a collision the insert
fails with a constraint violation instead of retrying, and tokens are
never checked against keys of the other column. -/
theorem C6_amended (wk rk : String) (now : Nat) (s : Store)
    (hw : ∀ c ∈ cleanup_expired now s, ¬ c.write_uuid = wk)
    (hr : ∀ c ∈ cleanup_expired now s, ¬ c.read_uuid = rk) :
    index wk rk now s =
      (cleanup_expired now s ++ [⟨wk, rk, false, now, false, none⟩],
       CreateOutcome.created wk rk) := by
  unfold index
  have h1 : (cleanup_expired now s).any (fun c => c.write_uuid == wk) = false := by
    rw [List.any_eq_false]
    intro x hx
    simpa using hw x hx
  have h2 : (cleanup_expired now s).any (fun c => c.read_uuid == rk) = false := by
    rw [List.any_eq_false]
    intro x hx
    simpa using hr x hx
  rw [h1, h2]
  simp

/-- C7: for every reachable cell state, `gravity_expires_at` is present iff
`gravity_enabled` is true, and every operation touching a cell — creation,
a write with or without a gravity duration, the lazy read-path reset, and
the gravity sweep — preserves this invariant over the whole table. -/
theorem C7 :
    (∀ wk rk now s, StoreGravityIff s → StoreGravityIff (index wk rk now s).fst) ∧
    (∀ wk bitp gtp now s, StoreGravityIff s →
        StoreGravityIff (write_bit wk bitp gtp now s).fst) ∧
    (∀ rk now s, StoreGravityIff s → StoreGravityIff (read_bit rk now s).fst) ∧
    (∀ now s, StoreGravityIff s → StoreGravityIff (gravity_monitor_pass now s)) := by
  refine ⟨?_, ?_, ?_, ?_⟩
  · intro wk rk now s h
    unfold index
    split
    · exact storeGravityIff_cleanup now s h
    · intro c hc
      rcases List.mem_append.mp hc with hl | hr
      · exact storeGravityIff_cleanup now s h c hl
      · have : c = ⟨wk, rk, false, now, false, none⟩ := by simpa using hr
        rw [this]
        simp [GravityIff]
  · intro wk bitp gtp now s h
    cases hfw : findByWrite s wk with
    | none =>
      rw [write_bit_not_found wk bitp gtp now s hfw]
      exact h
    | some row =>
      cases bitp with
      | none =>
        simp only [write_bit, hfw]
        exact h
      | some b =>
        cases gtp with
        | none =>
          simp only [write_bit, hfw]
          refine storeGravityIff_updateByWrite s wk _ ?_ h
          intro x hx
          simpa [GravityIff] using hx
        | some parsed =>
          cases parsed with
          | none =>
            simp only [write_bit, hfw]
            exact h
          | some g =>
            simp only [write_bit, hfw]
            refine storeGravityIff_updateByWrite s wk _ ?_ h
            intro x _
            by_cases hg : 0 < g
            · simp [GravityIff, hg]
            · simp [GravityIff, hg]
  · intro rk now s h
    cases hfr : findByRead s rk with
    | none =>
      rw [read_bit_not_found rk now s hfr]
      exact h
    | some row =>
      cases hx : row.gravity_expires_at with
      | none =>
        simp only [read_bit, hfr]
        rw [hx]
        exact h
      | some t =>
        by_cases hcond : (row.gravity_enabled && !(t == 0) && decide (t ≤ now)) = true
        · have h1 : read_bit rk now s =
              (updateByRead s rk gravityResetCell, ReadOutcome.value false) := by
            simp only [read_bit, hfr]
            rw [hx]
            simp only [hcond, if_pos]
          rw [h1]
          exact storeGravityIff_updateByRead s rk _ (fun x _ => gravityIff_reset x) h
        · have h1 : read_bit rk now s = (s, ReadOutcome.value row.bit) := by
            simp only [read_bit, hfr]
            rw [hx]
            simp [hcond]
          rw [h1]
          exact h
  · intro now s h c hc
    obtain ⟨y, hy, hyc⟩ := List.mem_map.mp hc
    exact hyc ▸ gravityIff_sweep now y (h y hy)

/-- C8: the gravity-expiry reset is idempotent.  On an already-`Disabled`
cell it is a no-op; applying it twice to an `Armed(t)` cell with `now ≥ t`
equals applying it once; the full sweeper pass is idempotent on the table;
and the lazy read path leaves a table it has already reconciled unchanged. -/
theorem C8 (now t : Nat) (c : Cell) (s : Store) (rk : String) :
    (c.gravity_enabled = false → gravitySweepCell now c = c) ∧
    (c.gravity_enabled = true → c.gravity_expires_at = some t → t ≤ now →
      gravitySweepCell now (gravitySweepCell now c) = gravitySweepCell now c) ∧
    gravity_monitor_pass now (gravity_monitor_pass now s) = gravity_monitor_pass now s ∧
    (read_bit rk now (read_bit rk now s).fst).fst = (read_bit rk now s).fst := by
  refine ⟨fun h => gravitySweepCell_disabled now c h,
    fun _ _ _ => gravitySweepCell_idem now c, ?_, read_bit_fst_idem rk now s⟩
  unfold gravity_monitor_pass
  rw [List.map_map]
  apply List.map_congr_left
  intro x _
  simp only [Function.comp_apply]
  exact gravitySweepCell_idem now x

/-- C9: a write key that does not resolve makes `write_bit` return
`NotFound` with the table untouched, whatever the other parameters are,
and a read key that does not resolve makes `read_bit` return `NotFound`
with the table untouched; both are ordinary return values. -/
theorem C9 :
    (∀ wk bitp gtp now s, findByWrite s wk = none →
        write_bit wk bitp gtp now s = (s, WriteOutcome.notFound)) ∧
    (∀ rk now s, findByRead s rk = none →
        read_bit rk now s = (s, ReadOutcome.notFound)) :=
  ⟨fun wk bitp gtp now s h => write_bit_not_found wk bitp gtp now s h,
   fun rk now s h => read_bit_not_found rk now s h⟩

/-- C10: a write request with no `bit` parameter mutates nothing — the
table is returned exactly as it was, even when a gravity duration is
supplied — and the route answers with the cell's key pair. -/
theorem C10 (wk : String) (gtp : Option (Option Int)) (now : Nat) (s : Store)
    (c : Cell) (hc : findByWrite s wk = some c) :
    write_bit wk none gtp now s = (s, WriteOutcome.keys wk c.read_uuid) := by
  simp only [write_bit, hc]

/-! ### Witnesses: the claim theorems instantiated at concrete tables -/

/-- Witness for C1: an armed cell with deadline 3 read at time 5. -/
theorem C1_witness :
    read_bit "r1" 5 [⟨"w1", "r1", true, 0, true, some 3⟩] =
      (updateByRead [⟨"w1", "r1", true, 0, true, some 3⟩] "r1" gravityResetCell,
       ReadOutcome.value false) :=
  ((C1 "r1" 5 [⟨"w1", "r1", true, 0, true, some 3⟩] ⟨"w1", "r1", true, 0, true, some 3⟩
      (by decide) (by decide)).1 3 rfl rfl (by decide)).1

/-- Witness for C2: a write arming gravity for 4 seconds at time 7. -/
theorem C2_witness :
    write_bit "w2" (some "true") (some (some 4)) 7 [⟨"w2", "r2", false, 1, false, none⟩] =
      (updateByWrite [⟨"w2", "r2", false, 1, false, none⟩] "w2" (fun x =>
         { x with
             bit := parseBit "true"
             created_at := 7
             gravity_enabled := true
             gravity_expires_at := some (7 + (4 : Int).toNat) }),
       WriteOutcome.updated (parseBit "true") "r2"
         (some (true, some (7 + (4 : Int).toNat)))) :=
  ((C2 "w2" "true" 4 7 [⟨"w2", "r2", false, 1, false, none⟩]
      ⟨"w2", "r2", false, 1, false, none⟩ (by decide)).1 (by decide)).1

/-- Witness for C3: the sweeper stores the reset row for an expired cell. -/
theorem C3_witness :
    findByRead (gravity_monitor_pass 9 [⟨"w3", "r3", true, 0, true, some 2⟩]) "r3" =
      some (gravityResetCell ⟨"w3", "r3", true, 0, true, some 2⟩) :=
  (C3 "r3" 9 2 [⟨"w3", "r3", true, 0, true, some 2⟩] ⟨"w3", "r3", true, 0, true, some 2⟩
      (by decide) (by decide) rfl rfl (by decide)).2.2.1

/-- Witness for C4: an idle cell is gone through its read key after the sweep. -/
theorem C4_witness :
    read_bit "r4" 300000 (cleanup_expired 300000 [⟨"w4", "r4", false, 0, false, none⟩]) =
      (cleanup_expired 300000 [⟨"w4", "r4", false, 0, false, none⟩],
       ReadOutcome.notFound) :=
  ((C4 300000 [⟨"w4", "r4", false, 0, false, none⟩]).2.2
      ⟨"w4", "r4", false, 0, false, none⟩
      (by decide) (by decide) (by decide) (by decide)).2

/-- Witness for C5 (amended): an unparsable duration is rejected in full. -/
theorem C5_witness :
    write_bit "w5" (some "x") (some none) 3 [⟨"w5", "r5", true, 2, false, none⟩] =
      ([⟨"w5", "r5", true, 2, false, none⟩], WriteOutcome.invalidGravity) :=
  (C5_amended "w5" "x" 3 [⟨"w5", "r5", true, 2, false, none⟩]
      ⟨"w5", "r5", true, 2, false, none⟩ (by decide)).1

/-- Witness for C6 (amended): creation into an empty table. -/
theorem C6_witness :
    index "a6" "b6" 7 [] =
      (cleanup_expired 7 [] ++ [⟨"a6", "b6", false, 7, false, none⟩],
       CreateOutcome.created "a6" "b6") :=
  C6_amended "a6" "b6" 7 []
    (fun c hc => absurd hc (List.not_mem_nil c))
    (fun c hc => absurd hc (List.not_mem_nil c))

/-- Witness for C7: the invariant after a read on the empty table. -/
theorem C7_witness : StoreGravityIff (read_bit "r7" 0 []).fst :=
  C7.2.2.1 "r7" 0 [] (fun c hc => absurd hc (List.not_mem_nil c))

/-- Witness for C8: the reset is a no-op on a disabled cell. -/
theorem C8_witness :
    gravitySweepCell 5 ⟨"w8", "r8", true, 0, false, none⟩ =
      ⟨"w8", "r8", true, 0, false, none⟩ :=
  (C8 5 3 ⟨"w8", "r8", true, 0, false, none⟩ [] "r8").1 rfl

/-- Witness for C9: a never-created write key answers `NotFound`. -/
theorem C9_witness :
    write_bit "nokey" none none 0 [] = ([], WriteOutcome.notFound) :=
  C9.1 "nokey" none none 0 [] rfl

/-- Witness for C10: a write with no bit parameter, gravity supplied. -/
theorem C10_witness :
    write_bit "wA" none (some (some 5)) 2 [⟨"wA", "rA", true, 1, false, none⟩] =
      ([⟨"wA", "rA", true, 1, false, none⟩], WriteOutcome.keys "wA" "rA") :=
  C10 "wA" (some (some 5)) 2 [⟨"wA", "rA", true, 1, false, none⟩]
    ⟨"wA", "rA", true, 1, false, none⟩ (by decide)

end BoolBin
